import Mathlib

/-!
Verification of the ADF (angular distribution function) engine `computeADF`
from `src/script.js` of the ADF_Plotter repository.

The JavaScript numeric kernel is embedded shallowly over the real numbers:
JS numbers become `ℝ`, `Math.round` becomes `round` (both send `x` to
`⌊x + 1/2⌋`, rounding ties toward positive infinity), `Math.sqrt` becomes
`Real.sqrt`, `Math.acos` becomes `Real.arccos`, `Math.PI` becomes `Real.pi`,
and `Math.floor` becomes `Int.floor`.  JS arrays become `List`s, indexed
reads become `List.getD`, in-place writes become `List.set`, `Array.reduce`
becomes `List.foldl`, and the imperative loops become left folds in the same
iteration order as the source.
-/

/-- Type of one 3-D point or displacement vector (a JS array of three numbers). -/
abbrev Vec3 : Type := ℝ × ℝ × ℝ

/-- Source function `dot(a, b)` (line 47): componentwise products, summed. -/
def dot (a b : Vec3) : ℝ :=
  a.1 * b.1 + a.2.1 * b.2.1 + a.2.2 * b.2.2

/-- Euclidean norm `Math.sqrt(dot(d, d))` as used on lines 71, 82 and 83. -/
noncomputable def norm3 (a : Vec3) : ℝ :=
  Real.sqrt (dot a a)

/-- Componentwise difference `pos[p] - pos[i]` (lines 58-62). -/
def sub3 (a b : Vec3) : Vec3 :=
  (a.1 - b.1, a.2.1 - b.2.1, a.2.2 - b.2.2)

/-- One axis of the minimum-image reduction of line 67:
`d[j] = d[j] - boxSize[j] * Math.round(d[j] / boxSize[j])`. -/
noncomputable def wrap1 (b d : ℝ) : ℝ :=
  d - b * ((round (d / b) : ℤ) : ℝ)

/-- The per-axis minimum-image reduction applied to all three axes of a
displacement (lines 65-69). -/
noncomputable def wrap3 (box d : Vec3) : Vec3 :=
  (wrap1 box.1 d.1, wrap1 box.2.1 d.2.1, wrap1 box.2.2 d.2.2)

/-- Entry `delta[p]` of the displacement array built for central particle `i`:
the raw componentwise difference followed by the periodic-boundary
minimum-image reduction (lines 58-69). -/
noncomputable def delta (positions : List Vec3) (box : Vec3) (i p : ℕ) : Vec3 :=
  wrap3 box (sub3 (positions.getD p (0, 0, 0)) (positions.getD i (0, 0, 0)))

/-- Entry `distances[p]`: the Euclidean norm of the wrapped displacement
(line 71). -/
noncomputable def distance (positions : List Vec3) (box : Vec3) (i p : ℕ) : ℝ :=
  norm3 (delta positions box i p)

/-- Neighbor list of particle `i` (lines 72-74): all indices `p` with
`distances[p] > 0 && distances[p] < rMax`, in increasing index order. -/
noncomputable def neighborsOf (positions : List Vec3) (box : Vec3) (rMax : ℝ) (i : ℕ) :
    List ℕ :=
  (List.range positions.length).filter fun p =>
    decide (0 < distance positions box i p ∧ distance positions box i p < rMax)

/-- All pairs `(l[jIdx], l[kIdx])` with `jIdx < kIdx`, in the iteration order
of the nested loops on lines 76-77 (outer `jIdx`, inner `kIdx`). -/
def pairs {α : Type} : List α → List (α × α)
  | [] => []
  | x :: xs => (xs.map fun y => (x, y)) ++ pairs xs

/-- Bin-edge array `thetaBin` (line 53): `numBins + 1` values `i * 180 / numBins`. -/
noncomputable def thetaBin (numBins : ℕ) : List ℝ :=
  (List.range (numBins + 1)).map fun i : ℕ => (i : ℝ) * 180 / numBins

/-- Bin width `dtheta = thetaBin[1] - thetaBin[0]` (line 54). -/
noncomputable def dtheta (numBins : ℕ) : ℝ :=
  (thetaBin numBins).getD 1 0 - (thetaBin numBins).getD 0 0

/-- Clamp of the cosine (line 87): `Math.min(1.0, Math.max(-1.0, cosTheta))`. -/
noncomputable def clamp (x : ℝ) : ℝ :=
  min 1 (max (-1) x)

/-- Angle in degrees between two displacement vectors at the central
particle (lines 86-88): `acos` of the clamped cosine, times `180 / π`. -/
noncomputable def angleDeg (vj vk : Vec3) : ℝ :=
  Real.arccos (clamp (dot vj vk / (norm3 vj * norm3 vk))) * 180 / Real.pi

/-- Binning step for one neighbor pair, after the zero-norm guard
(lines 89-92): bin index `Math.floor(theta / dtheta)`; if it lies in
`[0, numBins)` that bin gains 2, otherwise nothing changes. -/
noncomputable def pairBody (numBins : ℕ) (dt : ℝ) (adf : List ℝ) (vj vk : Vec3) :
    List ℝ :=
  if 0 ≤ ⌊angleDeg vj vk / dt⌋ ∧ ⌊angleDeg vj vk / dt⌋ < (numBins : ℤ) then
    adf.set ⌊angleDeg vj vk / dt⌋.toNat (adf.getD ⌊angleDeg vj vk / dt⌋.toNat 0 + 2)
  else adf

open Classical in
/-- One iteration of the pair loop body (lines 78-92): the defensive
zero-norm guard of line 84, then the binning step. -/
noncomputable def pairStep (numBins : ℕ) (dt : ℝ) (adf : List ℝ) (vj vk : Vec3) :
    List ℝ :=
  if norm3 vj = 0 ∨ norm3 vk = 0 then adf else pairBody numBins dt adf vj vk

/-- Body of the outer loop over central particles (lines 57-95 for one `i`):
fold the pair step over all neighbor pairs of `i`. -/
noncomputable def accumCenter (positions : List Vec3) (box : Vec3) (rMax : ℝ)
    (numBins : ℕ) (dt : ℝ) (adf : List ℝ) (i : ℕ) : List ℝ :=
  (pairs (neighborsOf positions box rMax i)).foldl
    (fun acc jk =>
      pairStep numBins dt acc (delta positions box i jk.1) (delta positions box i jk.2))
    adf

/-- The raw (pre-normalization) histogram produced by the double loop of
lines 55-95, starting from `numBins` zeros. -/
noncomputable def rawADF (positions : List Vec3) (box : Vec3) (rMax : ℝ) (numBins : ℕ) :
    List ℝ :=
  (List.range positions.length).foldl
    (accumCenter positions box rMax numBins (dtheta numBins))
    (List.replicate numBins 0)

/-- The `totalCounts` constant of line 97: `adf.reduce((sum, val) => sum + val, 0)`. -/
noncomputable def totalCounts (positions : List Vec3) (box : Vec3) (rMax : ℝ)
    (numBins : ℕ) : ℝ :=
  (rawADF positions box rMax numBins).foldl (· + ·) 0

open Classical in
/-- Full engine `computeADF` (lines 51-106): the raw histogram, then either
the `totalCounts === 0` early return of lines 98-101 or the normalization of
lines 103-105.  The first output is `thetaBin.slice(0, -1)`. -/
noncomputable def computeADF (positions : List Vec3) (box : Vec3) (rMax : ℝ)
    (numBins : ℕ) : List ℝ × List ℝ :=
  if totalCounts positions box rMax numBins = 0 then
    ((thetaBin numBins).dropLast, rawADF positions box rMax numBins)
  else
    ((thetaBin numBins).dropLast,
      (rawADF positions box rMax numBins).map fun c =>
        c / (totalCounts positions box rMax numBins * (dtheta numBins * Real.pi / 180)))

/-! ### Basic lemmas about the geometric helpers -/

lemma wrap1_zero (b : ℝ) : wrap1 b 0 = 0 := by
  simp [wrap1]

lemma sub3_self (a : Vec3) : sub3 a a = (0, 0, 0) := by
  simp [sub3]

lemma delta_self (positions : List Vec3) (box : Vec3) (i : ℕ) :
    delta positions box i i = (0, 0, 0) := by
  simp [delta, sub3_self, wrap3, wrap1_zero]

lemma norm3_origin : norm3 ((0 : ℝ), 0, 0) = 0 := by
  simp [norm3, dot]

lemma distance_self (positions : List Vec3) (box : Vec3) (i : ℕ) :
    distance positions box i i = 0 := by
  unfold distance
  rw [delta_self]
  exact norm3_origin

lemma mem_neighborsOf {positions : List Vec3} {box : Vec3} {rMax : ℝ} {i p : ℕ} :
    p ∈ neighborsOf positions box rMax i ↔
      p < positions.length ∧
        0 < distance positions box i p ∧ distance positions box i p < rMax := by
  simp [neighborsOf, List.mem_filter, List.mem_range]

lemma self_not_mem_neighborsOf (positions : List Vec3) (box : Vec3) (rMax : ℝ) (i : ℕ) :
    i ∉ neighborsOf positions box rMax i := by
  intro h
  rcases mem_neighborsOf.mp h with ⟨-, h0, -⟩
  rw [distance_self] at h0
  exact lt_irrefl 0 h0

/-! ### Lemmas about the pair enumeration -/

lemma mem_pairs {α : Type} (l : List α) (x y : α) :
    (x, y) ∈ pairs l ↔ ∃ j k : ℕ, j < k ∧ l[j]? = some x ∧ l[k]? = some y := by
  induction l with
  | nil => simp [pairs]
  | cons a xs ih =>
    simp only [pairs, List.mem_append, List.mem_map, ih]
    constructor
    · rintro (⟨y', hy', he⟩ | ⟨j, k, hjk, hj, hk⟩)
      · obtain ⟨rfl, rfl⟩ : a = x ∧ y' = y := by
          simpa [Prod.ext_iff] using he
        obtain ⟨k, hk⟩ := List.mem_iff_getElem?.mp hy'
        exact ⟨0, k + 1, Nat.succ_pos _, by simp, by simpa using hk⟩
      · exact ⟨j + 1, k + 1, by omega, by simpa using hj, by simpa using hk⟩
    · rintro ⟨j, k, hjk, hj, hk⟩
      cases j with
      | zero =>
        have hax : a = x := by simpa using hj
        cases k with
        | zero => omega
        | succ k =>
          have hky : xs[k]? = some y := by simpa using hk
          exact Or.inl ⟨y, List.mem_iff_getElem?.mpr ⟨k, hky⟩, by rw [hax]⟩
      | succ j =>
        cases k with
        | zero => omega
        | succ k =>
          exact Or.inr ⟨j, k, by omega, by simpa using hj, by simpa using hk⟩

lemma mem_of_mem_pairs {α : Type} {l : List α} {x y : α}
    (h : (x, y) ∈ pairs l) : x ∈ l ∧ y ∈ l := by
  rcases (mem_pairs l x y).mp h with ⟨j, k, -, hj, hk⟩
  exact ⟨List.mem_iff_getElem?.mpr ⟨j, hj⟩, List.mem_iff_getElem?.mpr ⟨k, hk⟩⟩

lemma pairs_eq_nil_of_length_le_one {α : Type} {l : List α} (h : l.length ≤ 1) :
    pairs l = [] := by
  match l, h with
  | [], _ => rfl
  | [x], _ => rfl

/-! ### Shape lemmas: lengths of the histograms -/

lemma length_pairBody (numBins : ℕ) (dt : ℝ) (adf : List ℝ) (vj vk : Vec3) :
    (pairBody numBins dt adf vj vk).length = adf.length := by
  unfold pairBody
  split
  · exact List.length_set adf _ _
  · rfl

lemma length_pairStep (numBins : ℕ) (dt : ℝ) (adf : List ℝ) (vj vk : Vec3) :
    (pairStep numBins dt adf vj vk).length = adf.length := by
  unfold pairStep
  split
  · rfl
  · exact length_pairBody numBins dt adf vj vk

lemma length_foldl_invariant {α : Type} (f : List ℝ → α → List ℝ)
    (hf : ∀ acc b, (f acc b).length = acc.length) :
    ∀ (l : List α) (acc : List ℝ), (l.foldl f acc).length = acc.length := by
  intro l
  induction l with
  | nil => intro acc; rfl
  | cons a xs ih => intro acc; rw [List.foldl_cons, ih, hf]

lemma length_accumCenter (positions : List Vec3) (box : Vec3) (rMax : ℝ)
    (numBins : ℕ) (dt : ℝ) (adf : List ℝ) (i : ℕ) :
    (accumCenter positions box rMax numBins dt adf i).length = adf.length := by
  unfold accumCenter
  exact length_foldl_invariant _ (fun acc jk => length_pairStep numBins dt acc _ _) _ adf

lemma length_rawADF (positions : List Vec3) (box : Vec3) (rMax : ℝ) (numBins : ℕ) :
    (rawADF positions box rMax numBins).length = numBins := by
  unfold rawADF
  rw [length_foldl_invariant _
    (fun acc i => length_accumCenter positions box rMax numBins (dtheta numBins) acc i)]
  exact List.length_replicate numBins 0

/-! ### Nonnegativity of the raw histogram -/

lemma getD_nonneg {l : List ℝ} (h : ∀ x ∈ l, 0 ≤ x) (m : ℕ) : 0 ≤ l.getD m 0 := by
  rcases lt_or_ge m l.length with hm | hm
  · rw [List.getD_eq_getElem?_getD, List.getElem?_eq_getElem hm]
    exact h _ (List.getElem_mem hm)
  · rw [List.getD_eq_getElem?_getD, List.getElem?_eq_none hm]
    exact le_refl 0

lemma nonneg_pairBody {adf : List ℝ} (h : ∀ x ∈ adf, 0 ≤ x)
    (numBins : ℕ) (dt : ℝ) (vj vk : Vec3) :
    ∀ x ∈ pairBody numBins dt adf vj vk, 0 ≤ x := by
  unfold pairBody
  split
  · intro x hx
    rcases List.mem_or_eq_of_mem_set hx with hx' | rfl
    · exact h x hx'
    · have h0 := getD_nonneg h ⌊angleDeg vj vk / dt⌋.toNat
      linarith
  · exact h

lemma nonneg_pairStep {adf : List ℝ} (h : ∀ x ∈ adf, 0 ≤ x)
    (numBins : ℕ) (dt : ℝ) (vj vk : Vec3) :
    ∀ x ∈ pairStep numBins dt adf vj vk, 0 ≤ x := by
  unfold pairStep
  split
  · exact h
  · exact nonneg_pairBody h numBins dt vj vk

lemma nonneg_foldl {α : Type} (f : List ℝ → α → List ℝ)
    (hf : ∀ acc b, (∀ x ∈ acc, 0 ≤ x) → ∀ x ∈ f acc b, 0 ≤ x) :
    ∀ (l : List α) (acc : List ℝ), (∀ x ∈ acc, 0 ≤ x) → ∀ x ∈ l.foldl f acc, 0 ≤ x := by
  intro l
  induction l with
  | nil => intro acc h; exact h
  | cons a xs ih => intro acc h; exact ih (f acc a) (hf acc a h)

lemma nonneg_rawADF (positions : List Vec3) (box : Vec3) (rMax : ℝ) (numBins : ℕ) :
    ∀ x ∈ rawADF positions box rMax numBins, 0 ≤ x := by
  unfold rawADF
  refine nonneg_foldl _ ?_ _ _ ?_
  · intro acc i hacc
    unfold accumCenter
    exact nonneg_foldl _ (fun a jk h => nonneg_pairStep h _ _ _ _) _ acc hacc
  · intro x hx
    rw [List.eq_of_mem_replicate hx]

/-! ### The total count and the all-zero case -/

lemma foldl_add_eq_sum : ∀ (l : List ℝ) (a : ℝ), l.foldl (· + ·) a = a + l.sum := by
  intro l
  induction l with
  | nil => intro a; simp
  | cons x xs ih => intro a; rw [List.foldl_cons, ih, List.sum_cons]; ring

lemma totalCounts_eq_sum (positions : List Vec3) (box : Vec3) (rMax : ℝ) (numBins : ℕ) :
    totalCounts positions box rMax numBins = (rawADF positions box rMax numBins).sum := by
  unfold totalCounts
  rw [foldl_add_eq_sum, zero_add]

lemma all_zero_of_sum_zero :
    ∀ {l : List ℝ}, (∀ x ∈ l, 0 ≤ x) → l.sum = 0 → ∀ x ∈ l, x = 0 := by
  intro l
  induction l with
  | nil => intro _ _ x hx; cases hx
  | cons a xs ih =>
    intro h hs x hx
    have ha : 0 ≤ a := h a (by simp)
    have hxs : ∀ z ∈ xs, 0 ≤ z := fun z hz => h z (by simp [hz])
    have hsx : 0 ≤ xs.sum := List.sum_nonneg hxs
    rw [List.sum_cons] at hs
    rcases List.mem_cons.mp hx with rfl | hx'
    · linarith
    · exact ih hxs (by linarith) x hx'

lemma rawADF_eq_replicate_of_total_zero {positions : List Vec3} {box : Vec3}
    {rMax : ℝ} {numBins : ℕ} (h : totalCounts positions box rMax numBins = 0) :
    rawADF positions box rMax numBins = List.replicate numBins 0 := by
  rw [totalCounts_eq_sum] at h
  refine List.eq_replicate_iff.mpr ⟨length_rawADF positions box rMax numBins, ?_⟩
  exact all_zero_of_sum_zero (nonneg_rawADF positions box rMax numBins) h

/-! ### The bin edges -/

lemma thetaBin_getD (n : ℕ) (i : ℕ) (hi : i < n + 1) :
    (thetaBin n).getD i 0 = (i : ℝ) * 180 / n := by
  unfold thetaBin
  rw [List.getD_eq_getElem?_getD, List.getElem?_map, List.getElem?_range hi]
  rfl

lemma dtheta_eq (n : ℕ) (hn : 1 ≤ n) : dtheta n = 180 / n := by
  unfold dtheta
  rw [thetaBin_getD n 1 (by omega), thetaBin_getD n 0 (by omega)]
  push_cast
  ring

lemma dropLast_thetaBin (n : ℕ) :
    (thetaBin n).dropLast = (List.range n).map fun i : ℕ => (i : ℝ) * 180 / n := by
  unfold thetaBin
  rw [List.range_succ, List.map_append]
  simp

lemma edges_getD (n i : ℕ) (hi : i < n) :
    ((thetaBin n).dropLast).getD i 0 = (i : ℝ) * 180 / n := by
  rw [dropLast_thetaBin, List.getD_eq_getElem?_getD, List.getElem?_map,
    List.getElem?_range hi]
  rfl

lemma length_edges (n : ℕ) : ((thetaBin n).dropLast).length = n := by
  rw [dropLast_thetaBin]
  simp

lemma computeADF_fst (positions : List Vec3) (box : Vec3) (rMax : ℝ) (numBins : ℕ) :
    (computeADF positions box rMax numBins).1 = (thetaBin numBins).dropLast := by
  unfold computeADF
  split <;> rfl

lemma computeADF_snd_length (positions : List Vec3) (box : Vec3) (rMax : ℝ) (numBins : ℕ) :
    (computeADF positions box rMax numBins).2.length = numBins := by
  unfold computeADF
  split
  · exact length_rawADF positions box rMax numBins
  · simpa using length_rawADF positions box rMax numBins

/-! ### Bounds on the computed angle -/

lemma angleDeg_nonneg (vj vk : Vec3) : 0 ≤ angleDeg vj vk := by
  unfold angleDeg
  exact div_nonneg (mul_nonneg (Real.arccos_nonneg _) (by norm_num)) Real.pi_pos.le

lemma angleDeg_le_180 (vj vk : Vec3) : angleDeg vj vk ≤ 180 := by
  unfold angleDeg
  rw [div_le_iff₀ Real.pi_pos]
  have h := Real.arccos_le_pi (clamp (dot vj vk / (norm3 vj * norm3 vk)))
  nlinarith [Real.pi_pos]

lemma floor_angle_nonneg (vj vk : Vec3) {dt : ℝ} (hdt : 0 < dt) :
    0 ≤ ⌊angleDeg vj vk / dt⌋ :=
  Int.floor_nonneg.mpr (div_nonneg (angleDeg_nonneg vj vk) hdt.le)

/-! ### The binning step, entry by entry -/

lemma pairStep_eq_pairBody {vj vk : Vec3} (hj : norm3 vj ≠ 0) (hk : norm3 vk ≠ 0)
    (numBins : ℕ) (dt : ℝ) (adf : List ℝ) :
    pairStep numBins dt adf vj vk = pairBody numBins dt adf vj vk := by
  unfold pairStep
  rw [if_neg]
  rintro (h | h)
  · exact hj h
  · exact hk h

lemma getD_pairBody (n : ℕ) (dt : ℝ) (adf : List ℝ) (hlen : adf.length = n)
    (vj vk : Vec3) (hb : 0 ≤ ⌊angleDeg vj vk / dt⌋) (m : ℕ) (hm : m < n) :
    (pairBody n dt adf vj vk).getD m 0
      = adf.getD m 0 + (if (m : ℤ) = ⌊angleDeg vj vk / dt⌋ then 2 else 0) := by
  unfold pairBody
  by_cases hlt : ⌊angleDeg vj vk / dt⌋ < (n : ℤ)
  · rw [if_pos ⟨hb, hlt⟩]
    by_cases hmb : (m : ℤ) = ⌊angleDeg vj vk / dt⌋
    · have hmb' : ⌊angleDeg vj vk / dt⌋.toNat = m := by omega
      have hml : ⌊angleDeg vj vk / dt⌋.toNat < adf.length := by omega
      rw [if_pos hmb, List.getD_eq_getElem?_getD, List.getElem?_set, if_pos hmb',
        if_pos hml, hmb']
      rfl
    · have hmb' : ⌊angleDeg vj vk / dt⌋.toNat ≠ m := by omega
      rw [if_neg hmb, List.getD_eq_getElem?_getD, List.getElem?_set, if_neg hmb',
        ← List.getD_eq_getElem?_getD]
      ring
  · rw [if_neg (fun h => hlt h.2)]
    have : (m : ℤ) ≠ ⌊angleDeg vj vk / dt⌋ := by omega
    rw [if_neg this]
    ring

lemma pairBody_at_180 {n : ℕ} (hn : 1 ≤ n) (adf : List ℝ) {vj vk : Vec3}
    (h : angleDeg vj vk = 180) :
    pairBody n (180 / n) adf vj vk = adf := by
  have hn0 : (n : ℝ) ≠ 0 := Nat.cast_ne_zero.mpr (by omega)
  have hfl : ⌊angleDeg vj vk / (180 / n)⌋ = (n : ℤ) := by
    rw [h]
    have h180 : (180 : ℝ) / (180 / n) = n := by field_simp
    rw [h180, Int.floor_natCast]
  unfold pairBody
  rw [if_neg]
  rintro ⟨-, hlt⟩
  rw [hfl] at hlt
  exact lt_irrefl _ hlt

/-! ### Concrete norm evaluations -/

lemma norm3_e1 : norm3 ((1 : ℝ), 0, 0) = 1 := by
  unfold norm3 dot
  norm_num

lemma norm3_e2 : norm3 ((0 : ℝ), 1, 0) = 1 := by
  unfold norm3 dot
  norm_num

lemma norm3_neg_e1 : norm3 ((-1 : ℝ), 0, 0) = 1 := by
  unfold norm3 dot
  norm_num

lemma norm3_diag : norm3 ((-1 : ℝ), 1, 0) = Real.sqrt 2 := by
  unfold norm3 dot
  norm_num

/-! ### Small systems: at most two particles -/

lemma length_neighborsOf_lt {positions : List Vec3} {box : Vec3} {rMax : ℝ} {i : ℕ}
    (hi : i < positions.length) :
    (neighborsOf positions box rMax i).length < positions.length := by
  unfold neighborsOf
  refine lt_of_lt_of_eq ?_ (List.length_range positions.length)
  refine List.length_filter_lt_length_iff_exists.mpr ⟨i, List.mem_range.mpr hi, ?_⟩
  simp [distance_self]

lemma accumCenter_of_few_neighbors {positions : List Vec3} {box : Vec3} {rMax : ℝ}
    {i : ℕ} (h : (neighborsOf positions box rMax i).length ≤ 1)
    (numBins : ℕ) (dt : ℝ) (adf : List ℝ) :
    accumCenter positions box rMax numBins dt adf i = adf := by
  unfold accumCenter
  rw [pairs_eq_nil_of_length_le_one h]
  rfl

lemma foldl_fixed {α : Type} (l : List α) (f : List ℝ → α → List ℝ)
    (h : ∀ acc, ∀ b ∈ l, f acc b = acc) (acc : List ℝ) : l.foldl f acc = acc := by
  induction l generalizing acc with
  | nil => rfl
  | cons a xs ih =>
    rw [List.foldl_cons, h acc a (by simp)]
    exact ih (fun acc' b hb => h acc' b (by simp [hb])) acc

lemma rawADF_of_small {positions : List Vec3} (h : positions.length < 3)
    (box : Vec3) (rMax : ℝ) (numBins : ℕ) :
    rawADF positions box rMax numBins = List.replicate numBins 0 := by
  unfold rawADF
  refine foldl_fixed _ _ (fun acc i hi => ?_) _
  have hi' : i < positions.length := List.mem_range.mp hi
  refine accumCenter_of_few_neighbors ?_ numBins (dtheta numBins) acc
  have := @length_neighborsOf_lt positions box rMax i hi'
  omega

/-! ### Claim theorems -/

/-- C1: the neighbor set of a central particle `i` computed by `computeADF`
is exactly the set of indices `p` whose minimum-image distance `d` from `i`
satisfies `0 < d < rMax`; the self index (distance 0) is never a neighbor,
and the boundary is half-open (a particle at distance exactly `rMax` fails
the strict `<` and is not a neighbor). -/
theorem neighborSet_exact (positions : List Vec3) (box : Vec3) (rMax : ℝ) (i p : ℕ) :
    (p ∈ neighborsOf positions box rMax i ↔
      p < positions.length ∧
        0 < distance positions box i p ∧ distance positions box i p < rMax)
    ∧ i ∉ neighborsOf positions box rMax i :=
  ⟨mem_neighborsOf, self_not_mem_neighborsOf positions box rMax i⟩

/-- Witness for C1 at a concrete two-particle input. -/
theorem neighborSet_exact_witness :
    (1 ∈ neighborsOf [((0 : ℝ), 0, 0), (1, 0, 0)] (10, 10, 10) 2 0 ↔
      1 < ([((0 : ℝ), 0, 0), (1, 0, 0)] : List Vec3).length ∧
        0 < distance [((0 : ℝ), 0, 0), (1, 0, 0)] (10, 10, 10) 0 1 ∧
          distance [((0 : ℝ), 0, 0), (1, 0, 0)] (10, 10, 10) 0 1 < 2)
    ∧ 0 ∉ neighborsOf [((0 : ℝ), 0, 0), (1, 0, 0)] (10, 10, 10) 2 0 :=
  neighborSet_exact [((0 : ℝ), 0, 0), (1, 0, 0)] (10, 10, 10) 2 0 1

/-- C10: `computeADF` is a pure, deterministic function of its four inputs:
identical inputs give identical `(theta, adf)` outputs, and the embedding is
stateless, so no earlier invocation can influence a later one. -/
theorem computeADF_deterministic (positions positions' : List Vec3) (box box' : Vec3)
    (rMax rMax' : ℝ) (numBins numBins' : ℕ)
    (hp : positions = positions') (hb : box = box') (hr : rMax = rMax')
    (hn : numBins = numBins') :
    computeADF positions box rMax numBins = computeADF positions' box' rMax' numBins' := by
  rw [hp, hb, hr, hn]

/-- Witness for C10 at a concrete input. -/
theorem computeADF_deterministic_witness :
    ([((0 : ℝ), 0, 0)] : List Vec3) = [((0 : ℝ), 0, 0)]
    ∧ computeADF [((0 : ℝ), 0, 0)] (1, 1, 1) 1 1
        = computeADF [((0 : ℝ), 0, 0)] (1, 1, 1) 1 1 :=
  ⟨rfl, computeADF_deterministic _ _ _ _ _ _ _ _ rfl rfl rfl rfl⟩

/-- C6: with fewer than three particles, `computeADF` takes the
`totalCounts === 0` path and returns an all-zero histogram of length
`numBins`. -/
theorem computeADF_small_input (positions : List Vec3) (box : Vec3) (rMax : ℝ)
    (numBins : ℕ) (h : positions.length < 3) :
    totalCounts positions box rMax numBins = 0
    ∧ (computeADF positions box rMax numBins).2 = List.replicate numBins 0
    ∧ (computeADF positions box rMax numBins).2.length = numBins := by
  have hraw := rawADF_of_small h box rMax numBins
  have htot : totalCounts positions box rMax numBins = 0 := by
    unfold totalCounts
    rw [hraw, foldl_add_eq_sum]
    simp
  refine ⟨htot, ?_, computeADF_snd_length positions box rMax numBins⟩
  unfold computeADF
  rw [if_pos htot]
  exact hraw

/-- Witness for C6 at a concrete two-particle input. -/
theorem computeADF_small_input_witness :
    ([((0 : ℝ), 0, 0), (1, 0, 0)] : List Vec3).length < 3
    ∧ (totalCounts [((0 : ℝ), 0, 0), (1, 0, 0)] (10, 10, 10) 5 4 = 0
       ∧ (computeADF [((0 : ℝ), 0, 0), (1, 0, 0)] (10, 10, 10) 5 4).2
           = List.replicate 4 0
       ∧ (computeADF [((0 : ℝ), 0, 0), (1, 0, 0)] (10, 10, 10) 5 4).2.length = 4) := by
  have h : ([((0 : ℝ), 0, 0), (1, 0, 0)] : List Vec3).length < 3 := by simp
  exact ⟨h, computeADF_small_input _ _ _ _ h⟩

lemma getD_map_at {l : List ℝ} {b : ℕ} (hb : b < l.length) (f : ℝ → ℝ) :
    (l.map f).getD b 0 = f (l.getD b 0) := by
  rw [List.getD_eq_getElem?_getD, List.getElem?_map, List.getElem?_eq_getElem hb,
    List.getD_eq_getElem?_getD, List.getElem?_eq_getElem hb]
  rfl

/-- C4: if the total of the raw bin counts is zero, `computeADF` returns the
raw histogram unchanged, and that histogram is all zeros; otherwise every
output bin equals the raw count divided by `total * dthetaRadians`, where
`dthetaRadians = dtheta * π / 180`. -/
theorem computeADF_normalization (positions : List Vec3) (box : Vec3) (rMax : ℝ)
    (numBins : ℕ) :
    (totalCounts positions box rMax numBins = 0 →
      computeADF positions box rMax numBins
          = ((thetaBin numBins).dropLast, rawADF positions box rMax numBins)
        ∧ rawADF positions box rMax numBins = List.replicate numBins 0)
    ∧ (totalCounts positions box rMax numBins ≠ 0 →
      ∀ b : ℕ, b < numBins →
        (computeADF positions box rMax numBins).2.getD b 0
          = (rawADF positions box rMax numBins).getD b 0
            / (totalCounts positions box rMax numBins
                * (dtheta numBins * Real.pi / 180))) := by
  constructor
  · intro h
    constructor
    · unfold computeADF
      rw [if_pos h]
    · exact rawADF_eq_replicate_of_total_zero h
  · intro h b hb
    unfold computeADF
    rw [if_neg h]
    have hb' : b < (rawADF positions box rMax numBins).length := by
      rw [length_rawADF]
      exact hb
    exact getD_map_at hb' _

/-- Witness for C4: the empty input takes the `total = 0` branch. -/
theorem computeADF_normalization_witness :
    totalCounts ([] : List Vec3) (1, 1, 1) 1 1 = 0
    ∧ (computeADF ([] : List Vec3) (1, 1, 1) 1 1
         = ((thetaBin 1).dropLast, rawADF ([] : List Vec3) (1, 1, 1) 1 1)
       ∧ rawADF ([] : List Vec3) (1, 1, 1) 1 1 = List.replicate 1 0) := by
  have h0 : totalCounts ([] : List Vec3) (1, 1, 1) 1 1 = 0 := by
    unfold totalCounts rawADF
    simp
  exact ⟨h0, (computeADF_normalization ([] : List Vec3) (1, 1, 1) 1 1).1 h0⟩

/-- C7: for `numBins ≥ 1` both outputs have length `numBins`, the edge list
starts at 0, ends at `180 * (numBins - 1) / numBins`, and is strictly
increasing with uniform spacing `180 / numBins`. -/
theorem computeADF_edges_shape (positions : List Vec3) (box : Vec3) (rMax : ℝ)
    (numBins : ℕ) (hn : 1 ≤ numBins) :
    (computeADF positions box rMax numBins).1.length = numBins
    ∧ (computeADF positions box rMax numBins).2.length = numBins
    ∧ (computeADF positions box rMax numBins).1.getD 0 0 = 0
    ∧ (computeADF positions box rMax numBins).1.getD (numBins - 1) 0
        = 180 * ((numBins : ℝ) - 1) / numBins
    ∧ (∀ i : ℕ, i + 1 < numBins →
        (computeADF positions box rMax numBins).1.getD i 0
            < (computeADF positions box rMax numBins).1.getD (i + 1) 0
          ∧ (computeADF positions box rMax numBins).1.getD (i + 1) 0
              - (computeADF positions box rMax numBins).1.getD i 0
              = 180 / numBins) := by
  have hn0 : (0 : ℝ) < numBins := by
    have : 0 < numBins := by omega
    exact_mod_cast this
  rw [computeADF_fst]
  refine ⟨length_edges numBins, computeADF_snd_length positions box rMax numBins, ?_, ?_, ?_⟩
  · rw [edges_getD numBins 0 (by omega)]
    simp
  · rw [edges_getD numBins (numBins - 1) (by omega)]
    have hc : ((numBins - 1 : ℕ) : ℝ) = (numBins : ℝ) - 1 := by
      push_cast [hn]
      ring
    rw [hc]
    ring
  · intro i hi
    rw [edges_getD numBins i (by omega), edges_getD numBins (i + 1) (by omega)]
    have key : ((i + 1 : ℕ) : ℝ) * 180 / numBins - (i : ℝ) * 180 / numBins
        = 180 / numBins := by
      push_cast
      field_simp
      ring
    have pos : (0 : ℝ) < 180 / numBins := by positivity
    exact ⟨by linarith, key⟩

/-- Witness for C7 at `numBins = 3`. -/
theorem computeADF_edges_shape_witness :
    1 ≤ 3
    ∧ ((computeADF ([] : List Vec3) (1, 1, 1) 1 3).1.length = 3
       ∧ (computeADF ([] : List Vec3) (1, 1, 1) 1 3).2.length = 3
       ∧ (computeADF ([] : List Vec3) (1, 1, 1) 1 3).1.getD 0 0 = 0
       ∧ (computeADF ([] : List Vec3) (1, 1, 1) 1 3).1.getD (3 - 1) 0
           = 180 * (((3 : ℕ) : ℝ) - 1) / ((3 : ℕ) : ℝ)
       ∧ (∀ i : ℕ, i + 1 < 3 →
           (computeADF ([] : List Vec3) (1, 1, 1) 1 3).1.getD i 0
               < (computeADF ([] : List Vec3) (1, 1, 1) 1 3).1.getD (i + 1) 0
             ∧ (computeADF ([] : List Vec3) (1, 1, 1) 1 3).1.getD (i + 1) 0
                 - (computeADF ([] : List Vec3) (1, 1, 1) 1 3).1.getD i 0
                 = 180 / ((3 : ℕ) : ℝ))) :=
  ⟨by norm_num, computeADF_edges_shape ([] : List Vec3) (1, 1, 1) 1 3 (by norm_num)⟩

/-- C8: the cosine handed to `acos` is clamped into `[-1, 1]` first, so
`acos` is never applied outside its domain; a cosine that lands at or below
-1 still produces `theta = 180` degrees rather than a domain error. -/
theorem clamp_before_acos :
    (∀ c : ℝ, -1 ≤ clamp c ∧ clamp c ≤ 1)
    ∧ (∀ vj vk : Vec3,
        angleDeg vj vk
          = Real.arccos (clamp (dot vj vk / (norm3 vj * norm3 vk))) * 180 / Real.pi)
    ∧ (∀ vj vk : Vec3,
        dot vj vk / (norm3 vj * norm3 vk) ≤ -1 → angleDeg vj vk = 180) := by
  refine ⟨fun c => ⟨le_min (by norm_num) (le_max_left _ _), min_le_left _ _⟩,
    fun vj vk => rfl, ?_⟩
  intro vj vk h
  unfold angleDeg clamp
  rw [max_eq_left h, min_eq_right (by norm_num : (-1 : ℝ) ≤ 1), Real.arccos_neg_one,
    mul_comm, mul_div_assoc, div_self Real.pi_ne_zero, mul_one]

/-- Witness for C8: two exactly antiparallel unit vectors give cosine -1 and
angle 180 degrees. -/
theorem clamp_before_acos_witness :
    (-1 ≤ clamp (-3) ∧ clamp (-3) ≤ 1)
    ∧ dot ((1 : ℝ), 0, 0) ((-1 : ℝ), 0, 0)
        / (norm3 ((1 : ℝ), 0, 0) * norm3 ((-1 : ℝ), 0, 0)) ≤ -1
    ∧ angleDeg ((1 : ℝ), 0, 0) ((-1 : ℝ), 0, 0) = 180 := by
  have h : dot ((1 : ℝ), 0, 0) ((-1 : ℝ), 0, 0)
      / (norm3 ((1 : ℝ), 0, 0) * norm3 ((-1 : ℝ), 0, 0)) ≤ -1 := by
    rw [norm3_e1, norm3_neg_e1]
    unfold dot
    norm_num
  exact ⟨clamp_before_acos.1 (-3), h, clamp_before_acos.2.2 _ _ h⟩

/-- C3: the bin width used by the pair loop is `180 / numBins`; the pair
list enumerates each unordered pair of distinct neighbor-list entries
exactly at the index pairs `j < k`; a pair whose angle lands at bin index
`floor(theta / dtheta)` inside `[0, numBins)` increments exactly that bin by
exactly 2 and leaves every other bin unchanged; and an angle of exactly 180
degrees (bin index `numBins`) contributes to no bin. -/
theorem pair_binning_rule (numBins : ℕ) (hn : 1 ≤ numBins) (adf : List ℝ)
    (hlen : adf.length = numBins) (vj vk : Vec3)
    (hj : norm3 vj ≠ 0) (hk : norm3 vk ≠ 0) :
    dtheta numBins = 180 / numBins
    ∧ (∀ (l : List ℕ) (x y : ℕ),
        (x, y) ∈ pairs l ↔ ∃ j k : ℕ, j < k ∧ l[j]? = some x ∧ l[k]? = some y)
    ∧ (∀ m : ℕ, m < numBins →
        (pairStep numBins (180 / numBins) adf vj vk).getD m 0
          = adf.getD m 0
            + (if (m : ℤ) = ⌊angleDeg vj vk / (180 / numBins)⌋ then 2 else 0))
    ∧ (angleDeg vj vk = 180 → pairStep numBins (180 / numBins) adf vj vk = adf) := by
  have hn0 : (0 : ℝ) < numBins := by
    have : 0 < numBins := by omega
    exact_mod_cast this
  have hdt : (0 : ℝ) < 180 / numBins := by positivity
  refine ⟨dtheta_eq numBins hn, fun l x y => mem_pairs l x y, ?_, ?_⟩
  · intro m hm
    rw [pairStep_eq_pairBody hj hk]
    exact getD_pairBody numBins _ adf hlen vj vk (floor_angle_nonneg vj vk hdt) m hm
  · intro h180
    rw [pairStep_eq_pairBody hj hk]
    exact pairBody_at_180 hn adf h180

/-- Witness for C3 with one bin and two orthogonal unit vectors. -/
theorem pair_binning_rule_witness :
    1 ≤ 1 ∧ ([(0 : ℝ)].length = 1)
    ∧ norm3 ((1 : ℝ), 0, 0) ≠ 0 ∧ norm3 ((0 : ℝ), 1, 0) ≠ 0
    ∧ (dtheta 1 = 180 / ((1 : ℕ) : ℝ)
       ∧ (∀ (l : List ℕ) (x y : ℕ),
           (x, y) ∈ pairs l ↔ ∃ j k : ℕ, j < k ∧ l[j]? = some x ∧ l[k]? = some y)
       ∧ (∀ m : ℕ, m < 1 →
           (pairStep 1 (180 / ((1 : ℕ) : ℝ)) [(0 : ℝ)] ((1 : ℝ), 0, 0)
               ((0 : ℝ), 1, 0)).getD m 0
             = [(0 : ℝ)].getD m 0
               + (if (m : ℤ) = ⌊angleDeg ((1 : ℝ), 0, 0) ((0 : ℝ), 1, 0)
                     / (180 / ((1 : ℕ) : ℝ))⌋ then 2 else 0))
       ∧ (angleDeg ((1 : ℝ), 0, 0) ((0 : ℝ), 1, 0) = 180 →
           pairStep 1 (180 / ((1 : ℕ) : ℝ)) [(0 : ℝ)] ((1 : ℝ), 0, 0) ((0 : ℝ), 1, 0)
             = [(0 : ℝ)])) := by
  have hj : norm3 ((1 : ℝ), 0, 0) ≠ 0 := by
    rw [norm3_e1]
    norm_num
  have hk : norm3 ((0 : ℝ), 1, 0) ≠ 0 := by
    rw [norm3_e2]
    norm_num
  exact ⟨le_refl 1, rfl, hj, hk,
    pair_binning_rule 1 (le_refl 1) [(0 : ℝ)] rfl ((1 : ℝ), 0, 0) ((0 : ℝ), 1, 0) hj hk⟩

/-- C9: every pair drawn from the neighbor list has strictly positive norms
(the same values that passed the strict `> 0` neighbor filter), so the
defensive zero-norm guard inside the pair loop never fires and the step
always reduces to the binning body. -/
theorem zero_norm_guard_dead (positions : List Vec3) (box : Vec3) (rMax : ℝ) (i : ℕ)
    (jk : ℕ × ℕ) (h : jk ∈ pairs (neighborsOf positions box rMax i)) :
    0 < norm3 (delta positions box i jk.1)
    ∧ 0 < norm3 (delta positions box i jk.2)
    ∧ ∀ (numBins : ℕ) (dt : ℝ) (adf : List ℝ),
        pairStep numBins dt adf (delta positions box i jk.1)
            (delta positions box i jk.2)
          = pairBody numBins dt adf (delta positions box i jk.1)
              (delta positions box i jk.2) := by
  obtain ⟨j, k⟩ := jk
  obtain ⟨hjm, hkm⟩ := mem_of_mem_pairs h
  have hj : 0 < distance positions box i j := (mem_neighborsOf.mp hjm).2.1
  have hk : 0 < distance positions box i k := (mem_neighborsOf.mp hkm).2.1
  exact ⟨hj, hk, fun numBins dt adf =>
    pairStep_eq_pairBody (ne_of_gt hj) (ne_of_gt hk) numBins dt adf⟩

/-! ### Concrete test configurations and their evaluation -/

/-- Periodic-wrap test input of C2: particles at (0.5, 5, 5) and (9.5, 5, 5). -/
noncomputable def pbcPositions : List Vec3 :=
  [(1 / 2, 5, 5), (19 / 2, 5, 5)]

/-- Periodic-wrap test box of C2: an orthorhombic 10 x 10 x 10 cell. -/
noncomputable def pbcBox : Vec3 :=
  (10, 10, 10)

/-- Right-angle test input of C5 and C9: a central particle at the origin
with neighbors at (1, 0, 0) and (0, 1, 0). -/
noncomputable def rightAnglePositions : List Vec3 :=
  [(0, 0, 0), (1, 0, 0), (0, 1, 0)]

/-- Right-angle test box: large enough that no periodic wrap applies. -/
noncomputable def bigBox : Vec3 :=
  (100, 100, 100)

lemma round_small {x : ℝ} (h1 : -(1 / 2) ≤ x) (h2 : x < 1 / 2) : round x = 0 :=
  round_eq_zero_iff.mpr ⟨h1, h2⟩

lemma wrap1_100 (d : ℝ) (h1 : -(50 : ℝ) ≤ d) (h2 : d < 50) : wrap1 100 d = d := by
  rw [wrap1, round_small (by linarith : -(1 / 2) ≤ d / 100) (by linarith : d / 100 < 1 / 2)]
  norm_num

lemma wrap3_big {x y z : ℝ} (hx1 : -(50 : ℝ) ≤ x) (hx2 : x < 50)
    (hy1 : -(50 : ℝ) ≤ y) (hy2 : y < 50) (hz1 : -(50 : ℝ) ≤ z) (hz2 : z < 50) :
    wrap3 bigBox (x, y, z) = (x, y, z) := by
  show (wrap1 100 x, wrap1 100 y, wrap1 100 z) = (x, y, z)
  rw [wrap1_100 x hx1 hx2, wrap1_100 y hy1 hy2, wrap1_100 z hz1 hz2]

lemma wrap1_10_9 : wrap1 10 (9 : ℝ) = -1 := by
  have hr : round ((9 : ℝ) / 10) = 1 := by
    rw [round_eq]
    refine Int.floor_eq_iff.mpr ⟨?_, ?_⟩ <;> push_cast <;> norm_num
  rw [wrap1, hr]
  norm_num

lemma norm3_neg_e2 : norm3 ((0 : ℝ), -1, 0) = 1 := by
  unfold norm3 dot
  norm_num

lemma norm3_diag2 : norm3 ((1 : ℝ), -1, 0) = Real.sqrt 2 := by
  unfold norm3 dot
  norm_num

lemma delta_R_0_1 : delta rightAnglePositions bigBox 0 1 = ((1 : ℝ), 0, 0) := by
  have hs : sub3 ((1 : ℝ), 0, 0) ((0 : ℝ), 0, 0) = ((1 : ℝ), 0, 0) := by
    unfold sub3
    norm_num
  calc delta rightAnglePositions bigBox 0 1
      = wrap3 bigBox (sub3 ((1 : ℝ), 0, 0) ((0 : ℝ), 0, 0)) := rfl
    _ = wrap3 bigBox ((1 : ℝ), 0, 0) := by rw [hs]
    _ = ((1 : ℝ), 0, 0) := wrap3_big (by norm_num) (by norm_num) (by norm_num)
        (by norm_num) (by norm_num) (by norm_num)

lemma delta_R_0_2 : delta rightAnglePositions bigBox 0 2 = ((0 : ℝ), 1, 0) := by
  have hs : sub3 ((0 : ℝ), 1, 0) ((0 : ℝ), 0, 0) = ((0 : ℝ), 1, 0) := by
    unfold sub3
    norm_num
  calc delta rightAnglePositions bigBox 0 2
      = wrap3 bigBox (sub3 ((0 : ℝ), 1, 0) ((0 : ℝ), 0, 0)) := rfl
    _ = wrap3 bigBox ((0 : ℝ), 1, 0) := by rw [hs]
    _ = ((0 : ℝ), 1, 0) := wrap3_big (by norm_num) (by norm_num) (by norm_num)
        (by norm_num) (by norm_num) (by norm_num)

lemma delta_R_1_0 : delta rightAnglePositions bigBox 1 0 = ((-1 : ℝ), 0, 0) := by
  have hs : sub3 ((0 : ℝ), 0, 0) ((1 : ℝ), 0, 0) = ((-1 : ℝ), 0, 0) := by
    unfold sub3
    norm_num
  calc delta rightAnglePositions bigBox 1 0
      = wrap3 bigBox (sub3 ((0 : ℝ), 0, 0) ((1 : ℝ), 0, 0)) := rfl
    _ = wrap3 bigBox ((-1 : ℝ), 0, 0) := by rw [hs]
    _ = ((-1 : ℝ), 0, 0) := wrap3_big (by norm_num) (by norm_num) (by norm_num)
        (by norm_num) (by norm_num) (by norm_num)

lemma delta_R_1_2 : delta rightAnglePositions bigBox 1 2 = ((-1 : ℝ), 1, 0) := by
  have hs : sub3 ((0 : ℝ), 1, 0) ((1 : ℝ), 0, 0) = ((-1 : ℝ), 1, 0) := by
    unfold sub3
    norm_num
  calc delta rightAnglePositions bigBox 1 2
      = wrap3 bigBox (sub3 ((0 : ℝ), 1, 0) ((1 : ℝ), 0, 0)) := rfl
    _ = wrap3 bigBox ((-1 : ℝ), 1, 0) := by rw [hs]
    _ = ((-1 : ℝ), 1, 0) := wrap3_big (by norm_num) (by norm_num) (by norm_num)
        (by norm_num) (by norm_num) (by norm_num)

lemma delta_R_2_0 : delta rightAnglePositions bigBox 2 0 = ((0 : ℝ), -1, 0) := by
  have hs : sub3 ((0 : ℝ), 0, 0) ((0 : ℝ), 1, 0) = ((0 : ℝ), -1, 0) := by
    unfold sub3
    norm_num
  calc delta rightAnglePositions bigBox 2 0
      = wrap3 bigBox (sub3 ((0 : ℝ), 0, 0) ((0 : ℝ), 1, 0)) := rfl
    _ = wrap3 bigBox ((0 : ℝ), -1, 0) := by rw [hs]
    _ = ((0 : ℝ), -1, 0) := wrap3_big (by norm_num) (by norm_num) (by norm_num)
        (by norm_num) (by norm_num) (by norm_num)

lemma delta_R_2_1 : delta rightAnglePositions bigBox 2 1 = ((1 : ℝ), -1, 0) := by
  have hs : sub3 ((1 : ℝ), 0, 0) ((0 : ℝ), 1, 0) = ((1 : ℝ), -1, 0) := by
    unfold sub3
    norm_num
  calc delta rightAnglePositions bigBox 2 1
      = wrap3 bigBox (sub3 ((1 : ℝ), 0, 0) ((0 : ℝ), 1, 0)) := rfl
    _ = wrap3 bigBox ((1 : ℝ), -1, 0) := by rw [hs]
    _ = ((1 : ℝ), -1, 0) := wrap3_big (by norm_num) (by norm_num) (by norm_num)
        (by norm_num) (by norm_num) (by norm_num)

lemma distance_R_01 : distance rightAnglePositions bigBox 0 1 = 1 := by
  unfold distance
  rw [delta_R_0_1]
  exact norm3_e1

lemma distance_R_02 : distance rightAnglePositions bigBox 0 2 = 1 := by
  unfold distance
  rw [delta_R_0_2]
  exact norm3_e2

lemma distance_R_10 : distance rightAnglePositions bigBox 1 0 = 1 := by
  unfold distance
  rw [delta_R_1_0]
  exact norm3_neg_e1

lemma distance_R_12 : distance rightAnglePositions bigBox 1 2 = Real.sqrt 2 := by
  unfold distance
  rw [delta_R_1_2]
  exact norm3_diag

lemma distance_R_20 : distance rightAnglePositions bigBox 2 0 = 1 := by
  unfold distance
  rw [delta_R_2_0]
  exact norm3_neg_e2

lemma distance_R_21 : distance rightAnglePositions bigBox 2 1 = Real.sqrt 2 := by
  unfold distance
  rw [delta_R_2_1]
  exact norm3_diag2

lemma five_quarters_lt_sqrt_two : (5 : ℝ) / 4 < Real.sqrt 2 :=
  (Real.lt_sqrt (by norm_num)).mpr (by norm_num)

lemma neighbors_R_0 : neighborsOf rightAnglePositions bigBox (5 / 4) 0 = [1, 2] := by
  unfold neighborsOf
  rw [show rightAnglePositions.length = 3 from rfl,
    show List.range 3 = [0, 1, 2] by rfl,
    List.filter_cons, List.filter_cons, List.filter_cons, List.filter_nil]
  simp only [distance_self, distance_R_01, distance_R_02]
  norm_num

lemma neighbors_R_1 : neighborsOf rightAnglePositions bigBox (5 / 4) 1 = [0] := by
  have hs : ¬ (Real.sqrt 2 < 5 / 4) := not_lt.mpr five_quarters_lt_sqrt_two.le
  unfold neighborsOf
  rw [show rightAnglePositions.length = 3 from rfl,
    show List.range 3 = [0, 1, 2] by rfl,
    List.filter_cons, List.filter_cons, List.filter_cons, List.filter_nil]
  simp only [distance_self, distance_R_10, distance_R_12]
  norm_num [hs]

lemma neighbors_R_2 : neighborsOf rightAnglePositions bigBox (5 / 4) 2 = [0] := by
  have hs : ¬ (Real.sqrt 2 < 5 / 4) := not_lt.mpr five_quarters_lt_sqrt_two.le
  unfold neighborsOf
  rw [show rightAnglePositions.length = 3 from rfl,
    show List.range 3 = [0, 1, 2] by rfl,
    List.filter_cons, List.filter_cons, List.filter_cons, List.filter_nil]
  simp only [distance_self, distance_R_20, distance_R_21]
  norm_num [hs]

lemma clamp_zero : clamp 0 = 0 := by
  unfold clamp
  rw [max_eq_right (by norm_num : (-1 : ℝ) ≤ 0), min_eq_right (by norm_num : (0 : ℝ) ≤ 1)]

lemma angleDeg_right_angle : angleDeg ((1 : ℝ), 0, 0) ((0 : ℝ), 1, 0) = 90 := by
  unfold angleDeg
  rw [norm3_e1, norm3_e2, show dot ((1 : ℝ), 0, 0) ((0 : ℝ), 1, 0) = 0 by unfold dot; norm_num]
  norm_num [clamp_zero, Real.arccos_zero]
  field_simp
  ring

lemma floor_ninety : ⌊(90 : ℝ) / 1⌋ = 90 := by
  rw [div_one, show (90 : ℝ) = ((90 : ℤ) : ℝ) by norm_num, Int.floor_intCast]

lemma pairStep_right_angle :
    pairStep 180 1 (List.replicate 180 (0 : ℝ)) ((1 : ℝ), 0, 0) ((0 : ℝ), 1, 0)
      = (List.replicate 180 (0 : ℝ)).set 90 2 := by
  rw [pairStep_eq_pairBody (by rw [norm3_e1]; norm_num) (by rw [norm3_e2]; norm_num)]
  unfold pairBody
  rw [angleDeg_right_angle, floor_ninety, if_pos (by decide : (0 : ℤ) ≤ 90 ∧ (90 : ℤ) < ((180 : ℕ) : ℤ))]
  norm_num [List.getD_eq_getElem?_getD, List.getElem?_replicate]
  rfl

lemma accum_R_0 (adf : List ℝ) :
    accumCenter rightAnglePositions bigBox (5 / 4) 180 1 adf 0
      = pairStep 180 1 adf ((1 : ℝ), 0, 0) ((0 : ℝ), 1, 0) := by
  unfold accumCenter
  rw [neighbors_R_0, show pairs [1, 2] = [(1, 2)] from rfl]
  simp only [List.foldl_cons, List.foldl_nil]
  rw [delta_R_0_1, delta_R_0_2]

lemma accum_R_1 (adf : List ℝ) :
    accumCenter rightAnglePositions bigBox (5 / 4) 180 1 adf 1 = adf := by
  unfold accumCenter
  rw [neighbors_R_1, show pairs [0] = ([] : List (ℕ × ℕ)) from rfl, List.foldl_nil]

lemma accum_R_2 (adf : List ℝ) :
    accumCenter rightAnglePositions bigBox (5 / 4) 180 1 adf 2 = adf := by
  unfold accumCenter
  rw [neighbors_R_2, show pairs [0] = ([] : List (ℕ × ℕ)) from rfl, List.foldl_nil]

lemma dtheta_180 : dtheta 180 = 1 := by
  rw [dtheta_eq 180 (by norm_num)]
  norm_num

/-- C5: with the central particle at the origin, neighbors at (1, 0, 0) and
(0, 1, 0), a 100 x 100 x 100 box (no wrap), `rMax = 5/4` (large enough to
include both unit-distance neighbors) and `numBins = 180`, the raw
pre-normalization histogram is 2 in bin 90 (left edge 90 degrees) and 0 in
every other bin. -/
theorem rawADF_right_angle_example :
    rawADF rightAnglePositions bigBox (5 / 4) 180
      = (List.replicate 180 (0 : ℝ)).set 90 2 := by
  unfold rawADF
  rw [dtheta_180, show rightAnglePositions.length = 3 from rfl,
    show List.range 3 = [0, 1, 2] by rfl,
    List.foldl_cons, List.foldl_cons, List.foldl_cons, List.foldl_nil,
    accum_R_0, pairStep_right_angle, accum_R_1, accum_R_2]

lemma delta_P2 : delta pbcPositions pbcBox 0 1 = ((-1 : ℝ), 0, 0) := by
  have hs : sub3 ((19 : ℝ) / 2, 5, 5) ((1 : ℝ) / 2, 5, 5) = ((9 : ℝ), 0, 0) := by
    unfold sub3
    norm_num
  calc delta pbcPositions pbcBox 0 1
      = wrap3 pbcBox (sub3 ((19 : ℝ) / 2, 5, 5) ((1 : ℝ) / 2, 5, 5)) := rfl
    _ = wrap3 pbcBox ((9 : ℝ), 0, 0) := by rw [hs]
    _ = ((-1 : ℝ), 0, 0) := by
        show (wrap1 10 9, wrap1 10 0, wrap1 10 0) = ((-1 : ℝ), 0, 0)
        rw [wrap1_10_9, wrap1_zero]

lemma distance_P2 : distance pbcPositions pbcBox 0 1 = 1 := by
  unfold distance
  rw [delta_P2]
  exact norm3_neg_e1

/-- C2: each axis of every displacement is reduced by the minimum-image
rule `d - boxSize * round(d / boxSize)` before any distance or angle is
computed; with box (10, 10, 10), particles at (0.5, 5, 5) and (9.5, 5, 5)
have wrapped distance 1 (not 9) and are neighbors when `rMax = 2`. -/
theorem minimum_image_convention :
    (∀ b d : ℝ, wrap1 b d = d - b * ((round (d / b) : ℤ) : ℝ))
    ∧ (∀ (positions : List Vec3) (box : Vec3) (i p : ℕ),
        distance positions box i p
          = norm3 (wrap3 box (sub3 (positions.getD p (0, 0, 0))
              (positions.getD i (0, 0, 0)))))
    ∧ distance pbcPositions pbcBox 0 1 = 1
    ∧ 1 ∈ neighborsOf pbcPositions pbcBox 2 0 := by
  refine ⟨fun b d => rfl, fun positions box i p => rfl, distance_P2, ?_⟩
  refine mem_neighborsOf.mpr ⟨?_, ?_, ?_⟩
  · rw [show pbcPositions.length = 2 from rfl]
    omega
  · rw [distance_P2]
    norm_num
  · rw [distance_P2]
    norm_num

/-- Witness for C9: the pair (1, 2) of the right-angle configuration is
drawn from a real neighbor list, its two norms are positive, and the guard
branch is skipped. -/
theorem zero_norm_guard_dead_witness :
    (1, 2) ∈ pairs (neighborsOf rightAnglePositions bigBox (5 / 4) 0)
    ∧ (0 < norm3 (delta rightAnglePositions bigBox 0 1)
       ∧ 0 < norm3 (delta rightAnglePositions bigBox 0 2)
       ∧ ∀ (numBins : ℕ) (dt : ℝ) (adf : List ℝ),
           pairStep numBins dt adf (delta rightAnglePositions bigBox 0 1)
               (delta rightAnglePositions bigBox 0 2)
             = pairBody numBins dt adf (delta rightAnglePositions bigBox 0 1)
                 (delta rightAnglePositions bigBox 0 2)) := by
  have hm : (1, 2) ∈ pairs (neighborsOf rightAnglePositions bigBox (5 / 4) 0) := by
    rw [neighbors_R_0]
    simp [pairs]
  exact ⟨hm, zero_norm_guard_dead rightAnglePositions bigBox (5 / 4) 0 (1, 2) hm⟩
